import Mathlib

/-!
Verification of the leptos-tutorial repository against its specification.

Part I models the fine-grained reactive dependency-tracking engine that the
specification describes in sections 3 and 4 (node store, dependency graph,
tracking context, mark/sweep propagator).  That engine is not part of the
repository's `src/` tree (the tutorial files only consume it), so every
definition in Part I is modelled from the specification's words.

Part II embeds the concrete repository code that the remaining claims are
about: `src/components/theme.rs` (`get_theme`), `src/components/button.rs`
(`get_colors`) and the `ContactInfo` component of `src/main.rs`.

Definitions come first, followed by the supporting lemmas and the claim
theorems.
-/

namespace Reactive

/-! ### Small list helpers used by the engine -/
/-- Boolean membership test on lists of node ids. -/
def memb (x : Nat) : List Nat → Bool
  | [] => false
  | y :: ys => x == y || memb x ys

/-- Insert an id at the end of a list unless it is already present. -/
def insertNew (x : Nat) (l : List Nat) : List Nat :=
  if memb x l then l else l ++ [x]

/-- Remove every occurrence of an id from a list. -/
def removeId (x : Nat) (l : List Nat) : List Nat :=
  l.filter (fun y => y ≠ x)

/-- Apply a function to the element at a given index, leaving the list
unchanged when the index is out of range. -/
def modifyAt (f : α → α) : Nat → List α → List α
  | _, [] => []
  | 0, x :: xs => f x :: xs
  | n + 1, x :: xs => x :: modifyAt f n xs

/-! ### The reactive engine, modelled from the spec

Modelled from the spec: the reactive signal/memo/effect engine the tutorial
consumes is not part of this repository's `src/` tree; the definitions below
follow the specification's sections 3 (data model) and 4 (node store,
dependency graph, tracking context, scheduler/propagator) word by word.

Compute functions of memos and bodies of effects are represented as a small
expression language: constants, tracked reads of other nodes, addition and a
conditional (enough to express every scenario the specification's testable
properties mention, in particular `if c() \x7b a() \x7d else \x7b b() \x7d`). -/
/-- A memo's compute function or an effect's body, as an expression that can
read other nodes.  `eread` is a tracked read; `econd c t e` evaluates `t`
when `c` evaluates to a non-zero value and `e` otherwise. -/
inductive Expr where
  | econst (v : Int)
  | eread (id : Nat)
  | eadd (a b : Expr)
  | econd (c t e : Expr)
deriving DecidableEq

/-- The kind of a reactive node: a writable signal, a memo with its compute
function, or an effect with its body. -/
inductive NodeKind where
  | signal
  | memo (compute : Expr)
  | effect (body : Expr)
deriving DecidableEq

/-- A node of the reactive graph: kind, current value slot, a flag telling
whether a memo has been computed at least once (memos are lazy), the dirty
flag used by the propagator, the set of source node ids (what this node read
last run), the set of subscriber node ids (who read this node last run), and
a run counter (how many times the node's function has executed). -/
structure Node where
  kind : NodeKind
  value : Int
  inited : Bool
  dirty : Bool
  sources : List Nat
  subscribers : List Nat
  runCount : Nat
deriving DecidableEq

/-- The node store: an arena of nodes indexed by id (disposed slots hold
`none`), plus the log of values observed by effect runs. -/
structure Engine where
  nodes : List (Option Node)
  log : List Int
deriving DecidableEq

/-- Errors of the engine: a disposed node was referenced, a dependency cycle
was detected, or the fuel of the shallow embedding ran out. -/
inductive Err where
  | staleNode
  | cycleErr
  | noFuel
deriving DecidableEq

def Engine.empty : Engine := ⟨[], []⟩

/-- Look a node up by id (`none` for never-allocated or disposed ids). -/
def Engine.find (st : Engine) (id : Nat) : Option Node :=
  st.nodes.getD id none

def numNodes (st : Engine) : Nat := st.nodes.length

/-- Apply a function to the node with the given id, if it exists. -/
def modifyNode (id : Nat) (f : Node → Node) (st : Engine) : Engine :=
  { st with nodes := modifyAt (Option.map f) id st.nodes }

def sourcesOf (st : Engine) (id : Nat) : List Nat :=
  match st.find id with
  | some n => n.sources
  | none => []

def subscribersOf (st : Engine) (id : Nat) : List Nat :=
  match st.find id with
  | some n => n.subscribers
  | none => []

def dirtyOf (st : Engine) (id : Nat) : Bool :=
  match st.find id with
  | some n => n.dirty
  | none => false

def runCountOf (st : Engine) (id : Nat) : Nat :=
  match st.find id with
  | some n => n.runCount
  | none => 0

def valueOf (st : Engine) (id : Nat) : Option Int :=
  match st.find id with
  | some n => some n.value
  | none => none

/-- `record_edge(source_id, consumer_id)`: adds consumer to source's
subscribers and source to consumer's sources (spec 4.2).  A no-op unless
both nodes exist (it is called only inside a tracked run, where both do). -/
def record_edge (src cons : Nat) (st : Engine) : Engine :=
  if (st.find src).isSome && (st.find cons).isSome then
    modifyNode cons (fun n => { n with sources := insertNew src n.sources })
      (modifyNode src
        (fun n => { n with subscribers := insertNew cons n.subscribers }) st)
  else st

/-- Remove a consumer from one source's subscriber set. -/
def removeSub (cons : Nat) (st : Engine) (src : Nat) : Engine :=
  modifyNode src (fun n => { n with subscribers := removeId cons n.subscribers }) st

/-- `clear_sources(consumer_id)`: before each run of a memo/effect, remove
the consumer from every one of its previous sources' subscriber sets, then
clear its own sources set (spec 4.2). -/
def clear_sources (cons : Nat) (st : Engine) : Engine :=
  match st.find cons with
  | none => st
  | some n =>
    modifyNode cons (fun m => { m with sources := [] })
      (n.sources.foldl (removeSub cons) st)

/-- Strip one disposed id out of a node's edge sets. -/
def scrubNode (id : Nat) (n : Node) : Node :=
  { n with sources := removeId id n.sources,
           subscribers := removeId id n.subscribers }

/-- `dispose(id)`: removes the node and removes it from every other node's
subscriber/source sets (spec 4.1).  Idempotent. -/
def dispose (id : Nat) (st : Engine) : Engine :=
  let scrubbed := st.nodes.map (Option.map (scrubNode id))
  { st with nodes := modifyAt (fun _ => none) id scrubbed }

/-- `set_value(id, v)`: overwrites the value and marks the node dirty for the
propagator; fails with `StaleNodeError` if `id` was disposed (spec 4.1). -/
def set_value (id : Nat) (v : Int) (st : Engine) : Except Err Engine :=
  match st.find id with
  | none => .error .staleNode
  | some _ => .ok (modifyNode id (fun n => { n with value := v, dirty := true }) st)

/-! ### Tracked execution (spec 4.3)

The tracking context is the explicit `stack` argument: the list of node ids
currently re-executing, innermost first.  A read consults the top of the
stack and records an edge; reading an id already on the stack is the spec's
cheap cycle guard ("if source is already an ancestor on the active
recomputation stack, reject" with `CycleError`).  Running a node pushes its
id, clears its previous sources, evaluates its body, then stores the value,
bumps its run counter and (for effects) logs the observed value.  Fuel makes
the recursion total; any finite acyclic evaluation succeeds with enough
fuel. -/
/-- A pending unit of work: evaluate an expression under a tracking stack, or
run the node with the given id (re-executing its compute function/body). -/
inductive Job where
  | eval (stack : List Nat) (e : Expr)
  | runN (stack : List Nat) (id : Nat)

/-- On a read with a non-empty tracking stack, record the edge from the node
being read to the consumer on top of the stack. -/
def trackRead (id : Nat) (stack : List Nat) (st : Engine) : Engine :=
  match stack with
  | [] => st
  | c :: _ => record_edge id c st

/-- After a node's body produced value `v`: store it, mark the node as
computed, bump its run counter, and append `v` to the log when the node is
an effect. -/
def finishRun (id : Nat) (v : Int) (isEff : Bool) (st : Engine) : Engine :=
  let st1 := modifyNode id
    (fun m => { m with value := v, inited := true, runCount := m.runCount + 1 }) st
  if isEff then { st1 with log := st1.log ++ [v] } else st1

/-- The body a run executes: a memo's compute function or an effect's body
(signals have none). -/
def nodeBody (n : Node) : Option Expr :=
  match n.kind with
  | .signal => none
  | .memo e => some e
  | .effect e => some e

def isEffectNode (n : Node) : Bool :=
  match n.kind with
  | .effect _ => true
  | _ => false

/-- The tracked executor.  `Job.eval` evaluates an expression (reads record
edges and lazily compute memos that were never computed); `Job.runN`
re-executes a node under the tracking discipline of spec 4.3:
push the id, `clear_sources`, evaluate the body, store the result. -/
def exec : Nat → Job → Engine → Except Err (Int × Engine)
  | 0, _, _ => .error .noFuel
  | Nat.succ f, Job.eval stack e, st =>
    match e with
    | .econst v => .ok (v, st)
    | .eread id =>
      if memb id stack then .error .cycleErr
      else
        match st.find id with
        | none => .error .staleNode
        | some n =>
          let st1 := trackRead id stack st
          match n.kind with
          | .signal => .ok (n.value, st1)
          | .memo _ =>
            if n.inited then .ok (n.value, st1)
            else exec f (Job.runN stack id) st1
          | .effect _ => .ok (n.value, st1)
    | .eadd a b =>
      match exec f (Job.eval stack a) st with
      | .error err => .error err
      | .ok (x, st1) =>
        match exec f (Job.eval stack b) st1 with
        | .error err => .error err
        | .ok (y, st2) => .ok (x + y, st2)
    | .econd c t e2 =>
      match exec f (Job.eval stack c) st with
      | .error err => .error err
      | .ok (x, st1) =>
        if x ≠ 0 then exec f (Job.eval stack t) st1
        else exec f (Job.eval stack e2) st1
  | Nat.succ f, Job.runN stack id, st =>
    match st.find id with
    | none => .error .staleNode
    | some n =>
      match nodeBody n with
      | none => .ok (n.value, st)
      | some body =>
        match exec f (Job.eval (id :: stack) body) (clear_sources id st) with
        | .error err => .error err
        | .ok (v, st2) => .ok (v, finishRun id v (isEffectNode n) st2)

/-- `get_value(id)`: an untracked top-level read; triggers the lazy initial
computation of a memo (spec 4.5: "first access triggers initial
computation"). -/
def get_value (f : Nat) (id : Nat) (st : Engine) : Except Err (Int × Engine) :=
  exec f (Job.eval [] (Expr.eread id)) st

/-! ### Public constructors (spec 4.5) -/
def createNode (k : NodeKind) (v : Int) (ini : Bool) (st : Engine) :
    Nat × Engine :=
  (st.nodes.length,
   { st with nodes := st.nodes ++ [some ⟨k, v, ini, false, [], [], 0⟩] })

/-- `create_signal(initial)`: a writable leaf node. -/
def create_signal (v : Int) (st : Engine) : Nat × Engine :=
  createNode NodeKind.signal v true st

/-- `create_memo(compute)`: lazy — the first access triggers the initial
computation. -/
def create_memo (e : Expr) (st : Engine) : Nat × Engine :=
  createNode (NodeKind.memo e) 0 false st

/-- `create_effect(run)`: runs once immediately (establishing its sources),
then again whenever the propagator sweep reaches it. -/
def create_effect (f : Nat) (e : Expr) (st : Engine) :
    Except Err (Nat × Engine) :=
  let p := createNode (NodeKind.effect e) 0 false st
  match exec f (Job.runN [] p.1) p.2 with
  | .error err => .error err
  | .ok (_, st2) => .ok (p.1, st2)

/-! ### Scheduler / Propagator (spec 4.4): mark, order, sweep -/
/-- Mark phase: breadth-first traversal of subscribers transitively from the
dirtied signals, collecting every reachable memo/effect id (possibly with
duplicates; callers deduplicate). -/
def markReachable : Nat → List Nat → List Nat → Engine → List Nat
  | 0, _, acc, _ => acc
  | _ + 1, [], acc, _ => acc
  | f + 1, x :: frontier, acc, st =>
    let fresh := (subscribersOf st x).filter (fun s => !(memb s acc))
    markReachable f (frontier ++ fresh) (acc ++ fresh) st

/-- A marked node is ready to be swept when none of its sources is still
waiting in the pending set (its sources are either unmarked or already
processed). -/
def readyNode (pending : List Nat) (st : Engine) (n : Nat) : Bool :=
  (sourcesOf st n).all (fun s => !(memb s pending))

/-- Order the marked subgraph topologically (sources before consumers),
restricted to the marked nodes; `none` when no progress is possible, i.e.
the marked subgraph has a cycle. -/
def topoSort : Nat → List Nat → Engine → Option (List Nat)
  | _, [], _ => some []
  | 0, _ :: _, _ => none
  | f + 1, x :: xs, st =>
    match (x :: xs).find? (fun n => readyNode (x :: xs) st n) with
    | none => none
    | some n =>
      match topoSort f ((x :: xs).erase n) st with
      | none => none
      | some l => some (n :: l)

/-- Does the node have at least one actually-dirty source? -/
def sourcesDirty (st : Engine) (n : Node) : Bool :=
  n.sources.any (fun s => dirtyOf st s)

/-- Sweep one marked node (spec 4.4 sweep phase).  A memo recomputes only if
at least one of its sources is actually dirty; it marks itself dirty only
when the recomputed value differs from the cached one (value-based
short-circuiting).  An effect re-runs under the same actually-dirty test and
marks nothing (it has no downstream). -/
def sweepStep (f : Nat) (id : Nat) (st : Engine) : Except Err Engine :=
  match st.find id with
  | none => .ok st
  | some n =>
    if sourcesDirty st n then
      match n.kind with
      | .signal => .ok st
      | .memo _ =>
        match exec f (Job.runN [] id) st with
        | .error err => .error err
        | .ok (v, st1) =>
          .ok (modifyNode id (fun m => { m with dirty := decide (v ≠ n.value) }) st1)
      | .effect _ =>
        match exec f (Job.runN [] id) st with
        | .error err => .error err
        | .ok (_, st1) => .ok st1
    else .ok st

/-- Run the sweep over an already-computed order. -/
def sweepAll (f : Nat) : List Nat → Engine → Except Err Engine
  | [], st => .ok st
  | id :: rest, st =>
    match sweepStep f id st with
    | .error err => .error err
    | .ok st1 => sweepAll f rest st1

/-- Reset every dirty flag at the end of a batch. -/
def clearAllDirty (st : Engine) : Engine :=
  { st with nodes := st.nodes.map (Option.map (fun n => { n with dirty := false })) }

def applyWrites : List (Nat × Int) → Engine → Except Err Engine
  | [], st => .ok st
  | (id, v) :: rest, st =>
    match set_value id v st with
    | .error err => .error err
    | .ok st1 => applyWrites rest st1

/-- One update batch (spec 4.4 batch discipline): apply all the writes, then
run exactly one mark/sweep — mark the transitive subscribers of the written
signals, order the marked subgraph topologically (failing the whole batch
with `CycleError` when it is cyclic), sweep in that order, and clear the
dirty flags. -/
def runBatch (f : Nat) (writes : List (Nat × Int)) (st : Engine) :
    Except Err Engine :=
  match applyWrites writes st with
  | .error err => .error err
  | .ok st1 =>
    let marked := (markReachable f (writes.map Prod.fst) [] st1).dedup
    match topoSort f marked st1 with
    | none => .error .cycleErr
    | some order =>
      match sweepAll f order st1 with
      | .error err => .error err
      | .ok st2 => .ok (clearAllDirty st2)

/-! ### Result extractors and concrete scenarios -/
/-- Chain a batch onto the result of a previous engine step. -/
def andThenBatch (f : Nat) (writes : List (Nat × Int)) :
    Except Err Engine → Except Err Engine
  | .ok st => runBatch f writes st
  | .error e => .error e

/-- Drop the id returned by `create_effect`, keeping the engine state. -/
def exceptEngine (r : Except Err (Nat × Engine)) : Except Err Engine :=
  match r with
  | .ok p => .ok p.2
  | .error e => .error e

def runCountAfter (r : Except Err Engine) (id : Nat) : Option Nat :=
  match r with
  | .ok st => some (runCountOf st id)
  | .error _ => none

def valueAfter (r : Except Err Engine) (id : Nat) : Option Int :=
  match r with
  | .ok st => valueOf st id
  | .error _ => none

def sourcesAfter (r : Except Err Engine) (id : Nat) : Option (List Nat) :=
  match r with
  | .ok st => some (sourcesOf st id)
  | .error _ => none

def logAfter (r : Except Err Engine) : Option (List Int) :=
  match r with
  | .ok st => some st.log
  | .error _ => none

/-- The value returned by a read, if it succeeded. -/
def valueRead (r : Except Err (Int × Engine)) : Option Int :=
  match r with
  | .ok p => some p.1
  | .error _ => none

def isCycleError (r : Except Err (Int × Engine)) : Bool :=
  match r with
  | .error .cycleErr => true
  | _ => false

/-- Diamond scenario (spec 8): signal `a` (id 0), memos `b = a + 1` (id 1)
and `c = a + 2` (id 2), effect `e` reading `b + c` (id 3). -/
def dmSig : Nat × Engine := create_signal 0 Engine.empty

def dmMemoB : Nat × Engine :=
  create_memo (Expr.eadd (Expr.eread 0) (Expr.econst 1)) dmSig.2

def dmMemoC : Nat × Engine :=
  create_memo (Expr.eadd (Expr.eread 0) (Expr.econst 2)) dmMemoB.2

def dmInit : Except Err Engine :=
  exceptEngine (create_effect 20 (Expr.eadd (Expr.eread 1) (Expr.eread 2)) dmMemoC.2)

def dmAfter : Except Err Engine := andThenBatch 20 [(0, 5)] dmInit

/-- Two independent signals (ids 0, 1) and one effect reading both (id 2),
written together in a single batch. -/
def twSigX : Nat × Engine := create_signal 0 Engine.empty

def twSigY : Nat × Engine := create_signal 0 twSigX.2

def twInit : Except Err Engine :=
  exceptEngine (create_effect 20 (Expr.eadd (Expr.eread 0) (Expr.eread 1)) twSigY.2)

def twAfter : Except Err Engine := andThenBatch 20 [(0, 1), (1, 2)] twInit

/-- Pruning scenario (spec 8): signals `c` (id 0, value 1), `a` (id 1,
value 10), `b` (id 2, value 20) and the memo
`m = if c() \x7b a() \x7d else \x7b b() \x7d` (id 3), initialized by a first
read. -/
def prSigC : Nat × Engine := create_signal 1 Engine.empty

def prSigA : Nat × Engine := create_signal 10 prSigC.2

def prSigB : Nat × Engine := create_signal 20 prSigA.2

def prMemo : Nat × Engine :=
  create_memo (Expr.econd (Expr.eread 0) (Expr.eread 1) (Expr.eread 2)) prSigB.2

def prInit : Except Err Engine :=
  match get_value 20 3 prMemo.2 with
  | .ok p => .ok p.2
  | .error e => .error e

def prWriteB1 : Except Err Engine := andThenBatch 20 [(2, 21)] prInit

def prToggleC : Except Err Engine := andThenBatch 20 [(0, 0)] prWriteB1

def prWriteB2 : Except Err Engine := andThenBatch 20 [(2, 22)] prToggleC

def prWriteA : Except Err Engine := andThenBatch 20 [(1, 11)] prWriteB2

/-- Short-circuit scenario (spec 8): signal `s` (id 0, value 3), memo
`m = if s() \x7b 5 \x7d else \x7b 5 \x7d` (id 1, value 5 regardless of `s`),
effect `e` reading `m` (id 2). -/
def scSig : Nat × Engine := create_signal 3 Engine.empty

def scMemo : Nat × Engine :=
  create_memo (Expr.econd (Expr.eread 0) (Expr.econst 5) (Expr.econst 5)) scSig.2

def scInit : Except Err Engine :=
  exceptEngine (create_effect 20 (Expr.eread 1) scMemo.2)

def scAfter : Except Err Engine := andThenBatch 20 [(0, 7)] scInit

/-- Cycle scenario (spec 8): memo `m1` (id 0) reads `m2` (id 1) whose
compute function reads `m1` back. -/
def cyMemo1 : Nat × Engine := create_memo (Expr.eread 1) Engine.empty

def cyMemo2 : Nat × Engine := create_memo (Expr.eread 0) cyMemo1.2

/-- Round-trip scenario (spec 8): `create_signal(0)` (id 0) and an effect
reading it (id 1), then a batch writing 5. -/
def rtSig : Nat × Engine := create_signal 0 Engine.empty

def rtInit : Except Err Engine :=
  exceptEngine (create_effect 20 (Expr.eread 0) rtSig.2)

def rtAfter : Except Err Engine := andThenBatch 20 [(0, 5)] rtInit

/-- Read a node's value with the getter in the engine state reached by `r`. -/
def getterAfter (r : Except Err Engine) (id : Nat) : Option Int :=
  match r with
  | .ok st => valueRead (get_value 20 id st)
  | .error _ => none

/-! ### Edge mutual consistency (spec 3, Edge invariant) -/
/-- The edge invariant of spec section 3: for all nodes A and B, A is in
B's sources exactly when B is in A's subscribers. -/
def EdgeSymm (st : Engine) : Prop :=
  ∀ a, a < numNodes st → ∀ b, b < numNodes st →
    (a ∈ sourcesOf st b ↔ b ∈ subscribersOf st a)

instance (st : Engine) : Decidable (EdgeSymm st) := by
  unfold EdgeSymm
  infer_instance

end Reactive

namespace Tutorial

/-! ### Part II: the repository's own code

`src/components/theme.rs`, `src/components/button.rs` and the `ContactInfo`
component of `src/main.rs`. -/
/-- Modelled from the spec: the `csscolorparser` crate is an external
dependency, not code under `src/`.  `Color` models its RGBA color value with
8-bit channels, as produced by its HTML-color parser. -/
structure Color where
  r : Nat
  g : Nat
  b : Nat
  a : Nat
deriving DecidableEq

/-- Value of one hexadecimal digit, `none` for a non-hex character. -/
def hexDigitVal (c : Char) : Option Nat :=
  if '0' ≤ c ∧ c ≤ '9' then some (c.toNat - '0'.toNat)
  else if 'a' ≤ c ∧ c ≤ 'f' then some (c.toNat - 'a'.toNat + 10)
  else if 'A' ≤ c ∧ c ≤ 'F' then some (c.toNat - 'A'.toNat + 10)
  else none

def hexPair (h l : Nat) : Nat := 16 * h + l

/-- Modelled from the spec: `csscolorparser::Color::from_html`, the external
crate's HTML color parser, restricted to the forms the repository feeds it —
`#rgb`, `#rgba`, `#rrggbb`, `#rrggbbaa` hex colors and the keyword
`transparent` (any other input is rejected, which under-approximates the
crate's full named-color table but agrees with it on every string appearing
in `src/components/theme.rs`). -/
def from_html (s : String) : Option Color :=
  match s.data with
  | '#' :: rest =>
    match rest.mapM hexDigitVal with
    | none => none
    | some ds =>
      match ds with
      | [r, g, b] => some ⟨17 * r, 17 * g, 17 * b, 255⟩
      | [r, g, b, a] => some ⟨17 * r, 17 * g, 17 * b, 17 * a⟩
      | [r1, r2, g1, g2, b1, b2] =>
        some ⟨hexPair r1 r2, hexPair g1 g2, hexPair b1 b2, 255⟩
      | [r1, r2, g1, g2, b1, b2, a1, a2] =>
        some ⟨hexPair r1 r2, hexPair g1 g2, hexPair b1 b2, hexPair a1 a2⟩
      | _ => none
  | _ => if s = "transparent" then some ⟨0, 0, 0, 0⟩ else none

def hexChar (n : Nat) : Char :=
  if n < 10 then Char.ofNat ('0'.toNat + n)
  else Char.ofNat ('a'.toNat + n - 10)

def hexByte (n : Nat) : List Char :=
  [hexChar (n / 16), hexChar (n % 16)]

/-- Modelled from the spec: `csscolorparser::Color::to_hex_string` — a
lowercase `#rrggbb` string, with the alpha byte appended when alpha is not
fully opaque. -/
def to_hex_string (c : Color) : String :=
  if c.a = 255 then
    String.mk ('#' :: (hexByte c.r ++ hexByte c.g ++ hexByte c.b))
  else
    String.mk ('#' :: (hexByte c.r ++ hexByte c.g ++ hexByte c.b ++ hexByte c.a))

/-- `Colors` from `src/components/theme.rs`: one palette entry. -/
structure Colors where
  main : Color
  darker : Color
  lighter : Color
  lightest : Color
deriving DecidableEq

/-- `Theme` from `src/components/theme.rs`. -/
structure Theme where
  teal : Colors
  pink : Colors
  green : Colors
  purple : Colors
  yellow : Colors
  gray : Colors
  red : Color
  black : Color
  white : Color
  transparent : Color
deriving DecidableEq

def mkColors (m d l lst : String) : Option Colors :=
  match from_html m, from_html d, from_html l, from_html lst with
  | some cm, some cd, some cl, some cls => some ⟨cm, cd, cl, cls⟩
  | _, _, _, _ => none

/-- `get_theme` from `src/components/theme.rs`: builds the `Theme` from the
hard-coded HTML color strings, short-circuiting (the Rust `?` operator) on
the first parse failure. -/
def get_theme : Option Theme :=
  match mkColors "#6FDDDB" "#2BB4B2" "#7EE1DF" "#B2EDEC",
        mkColors "#E93EF5" "#C70BD4" "#F5A4FA" "#FCE1FD",
        mkColors "#54D072" "#30AF4F" "#82DD98" "#B4EAC1",
        mkColors "#8C18FB" "#7204DB" "#B162FC" "#D0A1FD",
        mkColors "#E1E862" "#BAC31D" "#EFF3AC" "#FAFBE3",
        mkColors "#4a4a4a" "#3d3d3d" "#939393" "#c4c4c4" with
  | some teal, some pink, some green, some purple, some yellow, some gray =>
    match from_html "#FF5854", from_html "#000000", from_html "#FFFFFF",
          from_html "transparent" with
    | some red, some black, some white, some transp =>
      some ⟨teal, pink, green, purple, yellow, gray, red, black, white, transp⟩
    | _, _, _, _ => none
  | _, _, _, _, _, _ => none

/-- `Colors::lightest` accessor (hex string), from `theme.rs`. -/
def Colors.lightestHex (c : Colors) : String := to_hex_string c.lightest

/-- `Theme::red()` from `theme.rs`. -/
def Theme.redHex (t : Theme) : String := to_hex_string t.red

/-- `Theme::purple()` from `theme.rs` (the purple palette's main color). -/
def Theme.purpleHex (t : Theme) : String := to_hex_string t.purple.main

/-- `Theme::teal()` from `theme.rs` (the teal palette's darker color). -/
def Theme.tealHex (t : Theme) : String := to_hex_string t.teal.darker

/-- `Theme::black()` from `theme.rs`. -/
def Theme.blackHex (t : Theme) : String := to_hex_string t.black

/-- `Theme::white()` from `theme.rs`. -/
def Theme.whiteHex (t : Theme) : String := to_hex_string t.white

/-- `Theme::transparent()` from `theme.rs`. -/
def Theme.transparentHex (t : Theme) : String := to_hex_string t.transparent

/-- `Variant` from `src/components/button.rs`. -/
inductive Variant where
  | PRIMARY
  | SECONDARY
  | ALERT
  | DISABLED
deriving DecidableEq

/-- `ButtonColors` from `src/components/button.rs`. -/
structure ButtonColors where
  text : String
  background : String
  border : String
deriving DecidableEq

/-- `get_colors` from `src/components/button.rs`.  The Rust code unwraps
`get_theme()`; `none` here marks the state in which that unwrap would
panic. -/
def get_colors (variant : Variant) : Option ButtonColors :=
  match get_theme with
  | none => none
  | some theme =>
    some (match variant with
      | .PRIMARY =>
        ⟨theme.whiteHex, theme.purpleHex, theme.transparentHex⟩
      | .SECONDARY =>
        ⟨theme.blackHex, theme.tealHex, theme.gray.lightestHex⟩
      | .ALERT =>
        ⟨theme.whiteHex, theme.redHex, theme.transparentHex⟩
      | .DISABLED =>
        ⟨theme.whiteHex, theme.redHex, theme.transparentHex⟩)

/-- Route parameter maps (`ParamsMap`) as association lists; `params_get`
is `params.get(key)`. -/
def params_get : List (String × String) → String → Option String
  | [], _ => none
  | (k, v) :: rest, key => if k = key then some v else params_get rest key

/-- The `id` closure of `ContactInfo` in `src/main.rs`:
`params.get("id").cloned().unwrap_or_default()`. -/
def contactId (params : List (String × String)) : String :=
  (params_get params "id").getD ""

/-- The `name` closure of `ContactInfo` in `src/main.rs`: match on the id
string, defaulting to "User not found.". -/
def contactName (params : List (String × String)) : String :=
  if contactId params = "alice" then "Alice"
  else if contactId params = "bob" then "Bob"
  else if contactId params = "steve" then "Steve"
  else "User not found."

end Tutorial

open Reactive Tutorial

/-- The concrete diamond engine state (after effect creation), for use as a
witness input. -/
def dmEngine : Reactive.Engine :=
  match Reactive.dmInit with
  | .ok st => st
  | .error _ => Reactive.Engine.empty

/-- The short-circuit scenario's engine right after effect creation. -/
def scEngine : Reactive.Engine :=
  match Reactive.scInit with
  | .ok st => st
  | .error _ => Reactive.Engine.empty

/-- The short-circuit scenario's engine after the batch wrote 7 into the
signal (the memo's source is dirty, as at sweep time). -/
def scWritten : Reactive.Engine :=
  match Reactive.set_value 0 7 scEngine with
  | .ok st => st
  | .error _ => Reactive.Engine.empty

/-- The memo node of the short-circuit scenario at sweep time. -/
def scMemoNode : Reactive.Node :=
  match scWritten.find 1 with
  | some n => n
  | none => ⟨Reactive.NodeKind.signal, 0, false, false, [], [], 0⟩

/-- The engine state produced by re-running the memo at sweep time. -/
def scRunSt : Reactive.Engine :=
  match Reactive.exec 20 (Reactive.Job.runN [] 1) scWritten with
  | .ok p => p.2
  | .error _ => Reactive.Engine.empty

namespace Reactive

theorem memb_iff (x : Nat) (l : List Nat) : memb x l = true ↔ x ∈ l := by
  induction l with
  | nil => simp [memb]
  | cons y ys ih => simp [memb, ih, Nat.beq_eq, List.mem_cons]

theorem mem_insertNew (a x : Nat) (l : List Nat) :
    a ∈ insertNew x l ↔ a = x ∨ a ∈ l := by
  unfold insertNew
  by_cases h : memb x l = true
  · have hx : x ∈ l := (memb_iff x l).mp h
    simp only [h, if_true]
    constructor
    · intro ha; exact Or.inr ha
    · intro ha
      rcases ha with ha | ha
      · rw [ha]; exact hx
      · exact ha
  · have h' : memb x l = false := by
      cases hm : memb x l
      · rfl
      · exact absurd hm h
    simp [h', List.mem_append]
    tauto

theorem mem_removeId (a x : Nat) (l : List Nat) :
    a ∈ removeId x l ↔ a ∈ l ∧ a ≠ x := by
  unfold removeId
  simp [List.mem_filter]

theorem removeId_idem (x : Nat) (l : List Nat) :
    removeId x (removeId x l) = removeId x l := by
  unfold removeId
  rw [List.filter_filter]
  simp

theorem length_modifyAt (f : α → α) (n : Nat) (l : List α) :
    (modifyAt f n l).length = l.length := by
  induction l generalizing n with
  | nil => cases n <;> rfl
  | cons x xs ih =>
    cases n with
    | zero => rfl
    | succ m => simp [modifyAt, ih]

theorem getD_modifyAt_ne (f : α → α) (n m : Nat) (l : List α) (d : α)
    (h : m ≠ n) : (modifyAt f n l).getD m d = l.getD m d := by
  induction l generalizing n m with
  | nil => cases n <;> rfl
  | cons x xs ih =>
    cases n with
    | zero =>
      cases m with
      | zero => exact absurd rfl h
      | succ k => simp [modifyAt, List.getD]
    | succ j =>
      cases m with
      | zero => simp [modifyAt, List.getD]
      | succ k =>
        simp only [modifyAt, List.getD_cons_succ]
        exact ih j k (fun hk => h (congrArg Nat.succ hk))

theorem getD_modifyAt_self (f : α → α) (n : Nat) (l : List α) (d : α)
    (h : n < l.length) : (modifyAt f n l).getD n d = f (l.getD n d) := by
  induction l generalizing n with
  | nil => simp at h
  | cons x xs ih =>
    cases n with
    | zero => simp [modifyAt, List.getD]
    | succ m =>
      simp only [modifyAt, List.getD_cons_succ]
      exact ih m (Nat.lt_of_succ_lt_succ h)

theorem getD_map_option {β : Type} (g : β → β) (l : List (Option β)) (m : Nat) :
    (l.map (Option.map g)).getD m none = Option.map g (l.getD m none) := by
  induction l generalizing m with
  | nil => simp [List.getD]
  | cons x xs ih =>
    cases m with
    | zero => simp [List.getD]
    | succ k => simpa [List.getD_cons_succ] using ih k

/-! ### Glitch-freedom: properties of the sweep order -/
theorem readyNode_spec {p : List Nat} {st : Engine} {n : Nat}
    (h : readyNode p st n = true) : ∀ s ∈ sourcesOf st n, s ∉ p := by
  intro s hs
  have hall := List.all_eq_true.mp h s hs
  have hm : memb s p = false := by
    cases hmb : memb s p
    · rfl
    · rw [hmb] at hall; simp at hall
  intro hsp
  rw [(memb_iff s p).mpr hsp] at hm
  cases hm

theorem topoSort_subset :
    ∀ (f : Nat) (p : List Nat) (st : Engine) (l : List Nat),
      topoSort f p st = some l → ∀ x ∈ l, x ∈ p := by
  intro f
  induction f with
  | zero =>
    intro p st l h x hx
    cases p with
    | nil =>
      simp only [topoSort, Option.some_inj] at h
      subst h; simp at hx
    | cons a as => simp [topoSort] at h
  | succ f ih =>
    intro p st l h x hx
    cases p with
    | nil =>
      simp only [topoSort, Option.some_inj] at h
      subst h; simp at hx
    | cons a as =>
      simp only [topoSort] at h
      cases hfind : (a :: as).find? (fun n => readyNode (a :: as) st n) with
      | none => rw [hfind] at h; simp at h
      | some n =>
        rw [hfind] at h
        dsimp only at h
        cases hrec : topoSort f ((a :: as).erase n) st with
        | none => rw [hrec] at h; simp at h
        | some l' =>
          rw [hrec] at h
          simp only [Option.some_inj] at h
          subst h
          rcases List.mem_cons.mp hx with rfl | hx'
          · exact List.mem_of_find?_eq_some hfind
          · exact List.erase_subset n (a :: as) (ih _ st l' hrec x hx')

theorem topoSort_nodup_ordered :
    ∀ (f : Nat) (p : List Nat) (st : Engine) (l : List Nat),
      topoSort f p st = some l → p.Nodup →
      l.Nodup ∧
      ∀ n ∈ l, ∀ s ∈ sourcesOf st n, s ∈ l →
        List.indexOf s l < List.indexOf n l := by
  intro f
  induction f with
  | zero =>
    intro p st l h hnd
    cases p with
    | nil =>
      simp only [topoSort, Option.some_inj] at h
      subst h
      refine ⟨List.nodup_nil, ?_⟩
      intro n hn; simp at hn
    | cons a as => simp [topoSort] at h
  | succ f ih =>
    intro p st l h hnd
    cases p with
    | nil =>
      simp only [topoSort, Option.some_inj] at h
      subst h
      refine ⟨List.nodup_nil, ?_⟩
      intro n hn; simp at hn
    | cons a as =>
      simp only [topoSort] at h
      cases hfind : (a :: as).find? (fun n => readyNode (a :: as) st n) with
      | none => rw [hfind] at h; simp at h
      | some n =>
        rw [hfind] at h
        dsimp only at h
        cases hrec : topoSort f ((a :: as).erase n) st with
        | none => rw [hrec] at h; simp at h
        | some l' =>
          rw [hrec] at h
          simp only [Option.some_inj] at h
          subst h
          have hready : readyNode (a :: as) st n = true := by
            have := List.find?_some hfind
            simpa using this
          have hnp : n ∈ a :: as := List.mem_of_find?_eq_some hfind
          have hsub' : ∀ x ∈ l', x ∈ (a :: as).erase n :=
            topoSort_subset f _ st l' hrec
          have hnotin : n ∉ l' := by
            intro hn
            have := (hnd.mem_erase_iff).mp (hsub' n hn)
            exact this.1 rfl
          obtain ⟨hl'nd, hl'ord⟩ := ih _ st l' hrec (hnd.erase n)
          refine ⟨List.nodup_cons.mpr ⟨hnotin, hl'nd⟩, ?_⟩
          intro m hm s hs hsl
          rcases List.mem_cons.mp hm with rfl | hm'
          · -- the head is ready: none of its sources is anywhere in the output
            exfalso
            have hnsrc := readyNode_spec hready s hs
            rcases List.mem_cons.mp hsl with rfl | hsl'
            · exact hnsrc hnp
            · exact hnsrc (List.erase_subset m (a :: as) (hsub' s hsl'))
          · have hmn : m ≠ n := fun hEq => hnotin (hEq ▸ hm')
            rw [List.indexOf_cons_ne l' (fun hEq => hmn hEq.symm)]
            rcases List.mem_cons.mp hsl with rfl | hsl'
            · rw [List.indexOf_cons_self]
              exact Nat.succ_pos _
            · have hsn : s ≠ n := fun hEq => hnotin (hEq ▸ hsl')
              rw [List.indexOf_cons_ne l' (fun hEq => hsn hEq.symm)]
              exact Nat.succ_lt_succ (hl'ord m hm' s hs hsl')

theorem find_modifyNode (id : Nat) (f : Node → Node) (st : Engine) (j : Nat) :
    (modifyNode id f st).find j =
      if j = id then Option.map f (st.find j) else st.find j := by
  unfold modifyNode Engine.find
  by_cases hj : j = id
  · subst hj
    rw [if_pos rfl]
    by_cases hlt : j < st.nodes.length
    · rw [getD_modifyAt_self _ _ _ _ hlt]
    · have h1 : st.nodes.getD j none = none :=
        List.getD_eq_default _ _ (Nat.le_of_not_lt hlt)
      have h2 : (modifyAt (Option.map f) j st.nodes).getD j none = none := by
        apply List.getD_eq_default
        rw [length_modifyAt]
        exact Nat.le_of_not_lt hlt
      rw [h1, h2]
      rfl
  · rw [if_neg hj, getD_modifyAt_ne _ _ _ _ _ hj]

theorem numNodes_modifyNode (id : Nat) (f : Node → Node) (st : Engine) :
    numNodes (modifyNode id f st) = numNodes st := by
  unfold modifyNode numNodes
  exact length_modifyAt _ _ _

theorem isSome_find_modifyNode (id : Nat) (f : Node → Node) (st : Engine)
    (j : Nat) : ((modifyNode id f st).find j).isSome = (st.find j).isSome := by
  rw [find_modifyNode]
  by_cases hj : j = id
  · simp [hj, Option.isSome_map']
  · simp [hj]

theorem sourcesOf_modifyNode_keep (id : Nat) (f : Node → Node) (st : Engine)
    (j : Nat) (hf : ∀ n, (f n).sources = n.sources) :
    sourcesOf (modifyNode id f st) j = sourcesOf st j := by
  unfold sourcesOf
  rw [find_modifyNode]
  by_cases hj : j = id
  · simp only [hj, if_true]
    cases st.find id <;> simp [hf]
  · simp [hj]

theorem subscribersOf_modifyNode_keep (id : Nat) (f : Node → Node)
    (st : Engine) (j : Nat) (hf : ∀ n, (f n).subscribers = n.subscribers) :
    subscribersOf (modifyNode id f st) j = subscribersOf st j := by
  unfold subscribersOf
  rw [find_modifyNode]
  by_cases hj : j = id
  · simp only [hj, if_true]
    cases st.find id <;> simp [hf]
  · simp [hj]

theorem sourcesOf_modifyNode_ne (id : Nat) (f : Node → Node) (st : Engine)
    (j : Nat) (hj : j ≠ id) :
    sourcesOf (modifyNode id f st) j = sourcesOf st j := by
  unfold sourcesOf
  rw [find_modifyNode]
  simp [hj]

theorem subscribersOf_modifyNode_ne (id : Nat) (f : Node → Node) (st : Engine)
    (j : Nat) (hj : j ≠ id) :
    subscribersOf (modifyNode id f st) j = subscribersOf st j := by
  unfold subscribersOf
  rw [find_modifyNode]
  simp [hj]

/-! #### `record_edge` characterization -/
theorem numNodes_record_edge (s c : Nat) (st : Engine) :
    numNodes (record_edge s c st) = numNodes st := by
  unfold record_edge
  by_cases hg : ((st.find s).isSome && (st.find c).isSome) = true
  · simp [hg, numNodes_modifyNode]
  · simp [hg]

theorem sourcesOf_record_edge (s c : Nat) (st : Engine) (j : Nat)
    (hg : ((st.find s).isSome && (st.find c).isSome) = true) :
    sourcesOf (record_edge s c st) j =
      if j = c then insertNew s (sourcesOf st j) else sourcesOf st j := by
  unfold record_edge
  simp only [hg, if_true]
  by_cases hj : j = c
  · subst hj
    obtain ⟨nc, hnc⟩ := Option.isSome_iff_exists.mp (Bool.and_elim_right hg)
    unfold sourcesOf
    rw [find_modifyNode]
    simp only [if_pos rfl]
    rw [find_modifyNode]
    by_cases hcs : j = s
    · subst hcs
      rw [if_pos rfl, hnc]
      simp [sourcesOf, hnc]
    · rw [if_neg hcs, hnc]
      simp [sourcesOf, hnc]
  · rw [sourcesOf_modifyNode_ne _ _ _ _ hj]
    rw [sourcesOf_modifyNode_keep]
    · simp [hj]
    · intro n; rfl

theorem subscribersOf_record_edge (s c : Nat) (st : Engine) (j : Nat)
    (hg : ((st.find s).isSome && (st.find c).isSome) = true) :
    subscribersOf (record_edge s c st) j =
      if j = s then insertNew c (subscribersOf st j) else subscribersOf st j := by
  unfold record_edge
  simp only [hg, if_true]
  rw [subscribersOf_modifyNode_keep]
  · by_cases hj : j = s
    · subst hj
      obtain ⟨ns, hns⟩ := Option.isSome_iff_exists.mp (Bool.and_elim_left hg)
      unfold subscribersOf
      rw [find_modifyNode]
      simp only [if_pos rfl, hns]
      simp [subscribersOf, hns]
    · rw [subscribersOf_modifyNode_ne _ _ _ _ hj]
      simp [hj]
  · intro n; rfl

theorem record_edge_noop (s c : Nat) (st : Engine)
    (hg : ¬ ((st.find s).isSome && (st.find c).isSome) = true) :
    record_edge s c st = st := by
  unfold record_edge
  simp [hg]

/-! #### `clear_sources` characterization -/
theorem sourcesOf_removeSub (c : Nat) (st : Engine) (x j : Nat) :
    sourcesOf (removeSub c st x) j = sourcesOf st j := by
  unfold removeSub
  apply sourcesOf_modifyNode_keep
  intro n; rfl

theorem subscribersOf_removeSub (c : Nat) (st : Engine) (x j : Nat) :
    subscribersOf (removeSub c st x) j =
      if j = x then removeId c (subscribersOf st j) else subscribersOf st j := by
  unfold removeSub
  by_cases hj : j = x
  · subst hj
    rw [if_pos rfl]
    unfold subscribersOf
    rw [find_modifyNode]
    rw [if_pos rfl]
    cases st.find j <;> simp [removeId]
  · rw [if_neg hj]
    exact subscribersOf_modifyNode_ne _ _ _ _ hj

theorem numNodes_removeSub (c : Nat) (st : Engine) (x : Nat) :
    numNodes (removeSub c st x) = numNodes st :=
  numNodes_modifyNode _ _ _

theorem isSome_find_removeSub (c : Nat) (st : Engine) (x j : Nat) :
    ((removeSub c st x).find j).isSome = (st.find j).isSome :=
  isSome_find_modifyNode _ _ _ _

theorem sourcesOf_foldl_removeSub (c : Nat) :
    ∀ (L : List Nat) (st : Engine) (j : Nat),
      sourcesOf (L.foldl (removeSub c) st) j = sourcesOf st j := by
  intro L
  induction L with
  | nil => intro st j; rfl
  | cons x L ih =>
    intro st j
    rw [List.foldl_cons, ih, sourcesOf_removeSub]

theorem subscribersOf_foldl_removeSub (c : Nat) :
    ∀ (L : List Nat) (st : Engine) (j : Nat),
      subscribersOf (L.foldl (removeSub c) st) j =
        if j ∈ L then removeId c (subscribersOf st j) else subscribersOf st j := by
  intro L
  induction L with
  | nil => intro st j; simp
  | cons x L ih =>
    intro st j
    rw [List.foldl_cons, ih, subscribersOf_removeSub]
    by_cases hx : j = x
    · subst hx
      by_cases hL : j ∈ L
      · simp [hL, removeId_idem]
      · simp [hL]
    · by_cases hL : j ∈ L
      · simp [hL, hx, List.mem_cons]
      · have : j ∉ x :: L := by
          intro hmem
          rcases List.mem_cons.mp hmem with h | h
          · exact hx h
          · exact hL h
        simp [hL, hx, this]

theorem numNodes_foldl_removeSub (c : Nat) :
    ∀ (L : List Nat) (st : Engine),
      numNodes (L.foldl (removeSub c) st) = numNodes st := by
  intro L
  induction L with
  | nil => intro st; rfl
  | cons x L ih =>
    intro st
    rw [List.foldl_cons, ih, numNodes_removeSub]

theorem isSome_find_foldl_removeSub (c : Nat) :
    ∀ (L : List Nat) (st : Engine) (j : Nat),
      ((L.foldl (removeSub c) st).find j).isSome = (st.find j).isSome := by
  intro L
  induction L with
  | nil => intro st j; rfl
  | cons x L ih =>
    intro st j
    rw [List.foldl_cons, ih, isSome_find_removeSub]

theorem numNodes_clear_sources (c : Nat) (st : Engine) :
    numNodes (clear_sources c st) = numNodes st := by
  unfold clear_sources
  cases st.find c with
  | none => rfl
  | some n => rw [numNodes_modifyNode, numNodes_foldl_removeSub]

theorem sourcesOf_clear_sources (c : Nat) (st : Engine) (j : Nat) :
    sourcesOf (clear_sources c st) j =
      if j = c then [] else sourcesOf st j := by
  unfold clear_sources
  cases hc : st.find c with
  | none =>
    by_cases hj : j = c
    · subst hj
      rw [if_pos rfl]
      unfold sourcesOf
      rw [hc]
    · rw [if_neg hj]
  | some n =>
    by_cases hj : j = c
    · subst hj
      rw [if_pos rfl]
      unfold sourcesOf
      rw [find_modifyNode, if_pos rfl]
      have hs : (((n.sources).foldl (removeSub j) st).find j).isSome = true := by
        rw [isSome_find_foldl_removeSub, hc]
        rfl
      obtain ⟨m, hm⟩ := Option.isSome_iff_exists.mp hs
      rw [hm]
      rfl
    · rw [if_neg hj, sourcesOf_modifyNode_ne _ _ _ _ hj,
        sourcesOf_foldl_removeSub]

theorem subscribersOf_clear_sources (c : Nat) (st : Engine) (j : Nat) :
    subscribersOf (clear_sources c st) j =
      if j ∈ sourcesOf st c then removeId c (subscribersOf st j)
      else subscribersOf st j := by
  unfold clear_sources
  cases hc : st.find c with
  | none =>
    have : sourcesOf st c = [] := by unfold sourcesOf; rw [hc]
    rw [this]
    simp
  | some n =>
    have hsrc : sourcesOf st c = n.sources := by unfold sourcesOf; rw [hc]
    rw [hsrc]
    dsimp only
    have hkeep := subscribersOf_modifyNode_keep c
      (fun m => { m with sources := [] })
      (List.foldl (removeSub c) st n.sources) j (fun m => rfl)
    rw [hkeep]
    exact subscribersOf_foldl_removeSub c n.sources st j

/-! #### `dispose` characterization -/
theorem numNodes_dispose (i : Nat) (st : Engine) :
    numNodes (dispose i st) = numNodes st := by
  unfold dispose numNodes
  rw [length_modifyAt, List.length_map]

theorem find_dispose (i : Nat) (st : Engine) (j : Nat) :
    (dispose i st).find j =
      if j = i then none else Option.map (scrubNode i) (st.find j) := by
  unfold dispose Engine.find
  by_cases hj : j = i
  · subst hj
    rw [if_pos rfl]
    by_cases hlt : j < st.nodes.length
    · rw [getD_modifyAt_self]
      rw [List.length_map]
      exact hlt
    · apply List.getD_eq_default
      rw [length_modifyAt, List.length_map]
      exact Nat.le_of_not_lt hlt
  · rw [if_neg hj, getD_modifyAt_ne _ _ _ _ _ hj, getD_map_option]

theorem sourcesOf_dispose (i : Nat) (st : Engine) (j : Nat) :
    sourcesOf (dispose i st) j =
      if j = i then [] else removeId i (sourcesOf st j) := by
  unfold sourcesOf
  rw [find_dispose]
  by_cases hj : j = i
  · simp [hj]
  · rw [if_neg hj, if_neg hj]
    cases st.find j with
    | none => simp [removeId]
    | some n => rfl

theorem subscribersOf_dispose (i : Nat) (st : Engine) (j : Nat) :
    subscribersOf (dispose i st) j =
      if j = i then [] else removeId i (subscribersOf st j) := by
  unfold subscribersOf
  rw [find_dispose]
  by_cases hj : j = i
  · simp [hj]
  · rw [if_neg hj, if_neg hj]
    cases st.find j with
    | none => simp [removeId]
    | some n => rfl

/-! #### Preservation of the edge invariant -/
theorem edgeSymm_record_edge (s c : Nat) (st : Engine) (h : EdgeSymm st) :
    EdgeSymm (record_edge s c st) := by
  by_cases hg : ((st.find s).isSome && (st.find c).isSome) = true
  · intro a ha b hb
    rw [numNodes_record_edge] at ha hb
    rw [sourcesOf_record_edge s c st b hg, subscribersOf_record_edge s c st a hg]
    by_cases hbc : b = c
    · by_cases has : a = s
      · rw [if_pos hbc, if_pos has]
        constructor
        · intro _; exact (mem_insertNew _ _ _).mpr (Or.inl hbc)
        · intro _; exact (mem_insertNew _ _ _).mpr (Or.inl has)
      · rw [if_pos hbc, if_neg has, mem_insertNew]
        constructor
        · intro hcase
          rcases hcase with hcase | hcase
          · exact absurd hcase has
          · exact (h a ha b hb).mp hcase
        · intro hcase
          exact Or.inr ((h a ha b hb).mpr hcase)
    · by_cases has : a = s
      · rw [if_neg hbc, if_pos has, mem_insertNew]
        constructor
        · intro hcase
          exact Or.inr ((h a ha b hb).mp hcase)
        · intro hcase
          rcases hcase with hcase | hcase
          · exact absurd hcase hbc
          · exact (h a ha b hb).mpr hcase
      · rw [if_neg hbc, if_neg has]
        exact h a ha b hb
  · rw [record_edge_noop s c st hg]
    exact h

theorem edgeSymm_clear_sources (c : Nat) (st : Engine) (h : EdgeSymm st) :
    EdgeSymm (clear_sources c st) := by
  intro a ha b hb
  rw [numNodes_clear_sources] at ha hb
  rw [sourcesOf_clear_sources, subscribersOf_clear_sources]
  by_cases hbc : b = c
  · subst hbc
    rw [if_pos rfl]
    constructor
    · intro hfalse; simp at hfalse
    · intro hmem
      by_cases hasrc : a ∈ sourcesOf st b
      · rw [if_pos hasrc] at hmem
        exact absurd ((mem_removeId b b _).mp hmem).2 (fun hne => hne rfl)
      · rw [if_neg hasrc] at hmem
        exact absurd ((h a ha b hb).mpr hmem) hasrc
  · rw [if_neg hbc]
    by_cases hasrc : a ∈ sourcesOf st c
    · rw [if_pos hasrc, mem_removeId]
      constructor
      · intro hmem
        exact ⟨(h a ha b hb).mp hmem, hbc⟩
      · intro hmem
        exact (h a ha b hb).mpr hmem.1
    · rw [if_neg hasrc]
      exact h a ha b hb

theorem edgeSymm_dispose (i : Nat) (st : Engine) (h : EdgeSymm st) :
    EdgeSymm (dispose i st) := by
  intro a ha b hb
  rw [numNodes_dispose] at ha hb
  rw [sourcesOf_dispose, subscribersOf_dispose]
  by_cases hbi : b = i
  · rw [if_pos hbi]
    by_cases hai : a = i
    · rw [if_pos hai]
      simp
    · rw [if_neg hai, mem_removeId]
      constructor
      · intro hfalse; simp at hfalse
      · intro hmem
        exact absurd hbi hmem.2
  · rw [if_neg hbi]
    by_cases hai : a = i
    · rw [if_pos hai, mem_removeId]
      constructor
      · intro hmem
        exact absurd hai hmem.2
      · intro hfalse; simp at hfalse
    · rw [if_neg hai, mem_removeId, mem_removeId]
      constructor
      · intro hmem
        exact ⟨(h a ha b hb).mp hmem.1, hbi⟩
      · intro hmem
        exact ⟨(h a ha b hb).mpr hmem.1, hai⟩

theorem dirtyOf_modifyNode_keep (id : Nat) (f : Node → Node) (st : Engine)
    (j : Nat) (hf : ∀ n, (f n).dirty = n.dirty) :
    dirtyOf (modifyNode id f st) j = dirtyOf st j := by
  unfold dirtyOf
  rw [find_modifyNode]
  by_cases hj : j = id
  · simp only [hj, if_true]
    cases st.find id <;> simp [hf]
  · simp [hj]

theorem dirtyOf_record_edge (s c : Nat) (st : Engine) (j : Nat) :
    dirtyOf (record_edge s c st) j = dirtyOf st j := by
  unfold record_edge
  by_cases hg : ((st.find s).isSome && (st.find c).isSome) = true
  · simp only [hg, if_true]
    have h1 := dirtyOf_modifyNode_keep c
      (fun n => { n with sources := insertNew s n.sources })
      (modifyNode s (fun n => { n with subscribers := insertNew c n.subscribers }) st)
      j (fun n => rfl)
    have h2 := dirtyOf_modifyNode_keep s
      (fun n => { n with subscribers := insertNew c n.subscribers }) st j (fun n => rfl)
    rw [h1, h2]
  · simp [hg]

theorem dirtyOf_trackRead (id : Nat) (stack : List Nat) (st : Engine) (j : Nat) :
    dirtyOf (trackRead id stack st) j = dirtyOf st j := by
  unfold trackRead
  cases stack with
  | nil => rfl
  | cons c rest => exact dirtyOf_record_edge id c st j

theorem dirtyOf_removeSub (c : Nat) (st : Engine) (x j : Nat) :
    dirtyOf (removeSub c st x) j = dirtyOf st j := by
  unfold removeSub
  exact dirtyOf_modifyNode_keep x
    (fun n => { n with subscribers := removeId c n.subscribers }) st j (fun n => rfl)

theorem dirtyOf_foldl_removeSub (c : Nat) :
    ∀ (L : List Nat) (st : Engine) (j : Nat),
      dirtyOf (L.foldl (removeSub c) st) j = dirtyOf st j := by
  intro L
  induction L with
  | nil => intro st j; rfl
  | cons x L ih =>
    intro st j
    rw [List.foldl_cons, ih, dirtyOf_removeSub]

theorem dirtyOf_clear_sources (c : Nat) (st : Engine) (j : Nat) :
    dirtyOf (clear_sources c st) j = dirtyOf st j := by
  unfold clear_sources
  cases hc : st.find c with
  | none => rfl
  | some n =>
    dsimp only
    have hk := dirtyOf_modifyNode_keep c (fun m => { m with sources := [] })
      (List.foldl (removeSub c) st n.sources) j (fun m => rfl)
    rw [hk, dirtyOf_foldl_removeSub]

theorem dirtyOf_finishRun (id : Nat) (v : Int) (isEff : Bool) (st : Engine)
    (j : Nat) : dirtyOf (finishRun id v isEff st) j = dirtyOf st j := by
  unfold finishRun
  have hk := dirtyOf_modifyNode_keep id
    (fun m => { m with value := v, inited := true, runCount := m.runCount + 1 })
    st j (fun m => rfl)
  cases isEff
  · simpa using hk
  · simpa using hk

theorem exec_preserves_dirty :
    ∀ (f : Nat) (job : Job) (st : Engine) (v : Int) (st' : Engine),
      exec f job st = .ok (v, st') → ∀ j, dirtyOf st' j = dirtyOf st j := by
  intro f
  induction f with
  | zero =>
    intro job st v st' h j
    simp [exec] at h
  | succ f ih =>
    intro job st v st' h j
    cases job with
    | eval stack e =>
      cases e with
      | econst w =>
        simp only [exec, Except.ok.injEq, Prod.mk.injEq] at h
        rw [← h.2]
      | eread id =>
        simp only [exec] at h
        split at h
        · simp at h
        · split at h
          · simp at h
          · rename_i n hfind
            split at h
            · simp only [Except.ok.injEq, Prod.mk.injEq] at h
              rw [← h.2, dirtyOf_trackRead]
            · split at h
              · simp only [Except.ok.injEq, Prod.mk.injEq] at h
                rw [← h.2, dirtyOf_trackRead]
              · rw [ih _ _ _ _ h j, dirtyOf_trackRead]
            · simp only [Except.ok.injEq, Prod.mk.injEq] at h
              rw [← h.2, dirtyOf_trackRead]
      | eadd a b =>
        simp only [exec] at h
        split at h
        · simp at h
        · rename_i x st1 hx
          split at h
          · simp at h
          · rename_i y st2 hy
            simp only [Except.ok.injEq, Prod.mk.injEq] at h
            rw [← h.2, ih _ _ _ _ hy j, ih _ _ _ _ hx j]
      | econd c t e2 =>
        simp only [exec] at h
        split at h
        · simp at h
        · rename_i x st1 hx
          split at h
          · rw [ih _ _ _ _ h j, ih _ _ _ _ hx j]
          · rw [ih _ _ _ _ h j, ih _ _ _ _ hx j]
    | runN stack id =>
      simp only [exec] at h
      split at h
      · simp at h
      · rename_i n hfind
        split at h
        · simp only [Except.ok.injEq, Prod.mk.injEq] at h
          rw [← h.2]
        · split at h
          · simp at h
          · rename_i w st2 hw
            simp only [Except.ok.injEq, Prod.mk.injEq] at h
            rw [← h.2, dirtyOf_finishRun, ih _ _ _ _ hw j, dirtyOf_clear_sources]

theorem dirtyOf_modifyNode_ne (id : Nat) (f : Node → Node) (st : Engine)
    (j : Nat) (hj : j ≠ id) :
    dirtyOf (modifyNode id f st) j = dirtyOf st j := by
  unfold dirtyOf
  rw [find_modifyNode]
  simp [hj]

/-- Sweeping a memo whose recomputation produced the value it already held
does not set any dirty flag: every other node's flag is untouched (running
the compute function never touches dirty flags) and the memo's own flag is
left false, so its subscribers will not see a dirty source. -/
theorem sweepStep_memo_unchanged (f id : Nat) (st : Engine) (n : Node)
    (e : Expr) (v : Int) (st1 : Engine)
    (hfind : st.find id = some n) (hkind : n.kind = NodeKind.memo e)
    (hdirty : sourcesDirty st n = true)
    (hrun : exec f (Job.runN [] id) st = .ok (v, st1)) (heq : v = n.value) :
    ∃ st2, sweepStep f id st = .ok st2 ∧
      (∀ j, j ≠ id → dirtyOf st2 j = dirtyOf st j) ∧
      dirtyOf st2 id = false := by
  unfold sweepStep
  rw [hfind]
  dsimp only
  rw [hkind]
  simp only [hdirty, if_true]
  rw [hrun]
  dsimp only
  have hdec : decide (v ≠ n.value) = false := by
    rw [heq]
    simp
  simp only [hdec]
  refine ⟨_, rfl, ?_, ?_⟩
  · intro j hj
    rw [dirtyOf_modifyNode_ne _ _ _ _ hj]
    exact exec_preserves_dirty f _ st v st1 hrun j
  · unfold dirtyOf
    rw [find_modifyNode]
    simp only [if_pos rfl]
    cases st1.find id <;> simp

end Reactive

/-- Claim C2 — diamond coalescing: with signal `a`, memos `b = f(a)` and
`c = g(a)`, and an effect `e` reading both, the effect has run once at
creation, and a single write to `a` makes it run exactly once more (twice in
total), not twice more; and a batch writing two independent signals read by
one effect also makes that effect run exactly once more — one mark/sweep per
batch, not one per write. -/
theorem diamond_coalescing_effect_runs_once :
    runCountAfter dmInit 3 = some 1 ∧
    runCountAfter dmAfter 3 = some 2 ∧
    runCountAfter dmAfter 1 = some 2 ∧
    runCountAfter dmAfter 2 = some 2 ∧
    runCountAfter twInit 2 = some 1 ∧
    runCountAfter twAfter 2 = some 2 := by
  decide

/-- Claim C3 — dynamic dependency pruning: for the memo
`m = if c() then a() else b()` with `c` initially true, the memo's sources
are exactly the nodes read during its last run (`c` and `a` first, `c` and
`b` after the toggle); a write to `b` does not rerun `m` while `c` is true,
toggling `c` reruns it, after which a write to `b` reruns it and a write to
`a` no longer does. -/
theorem dynamic_dependency_pruning :
    runCountAfter prInit 3 = some 1 ∧
    sourcesAfter prInit 3 = some [0, 1] ∧
    runCountAfter prWriteB1 3 = some 1 ∧
    runCountAfter prToggleC 3 = some 2 ∧
    sourcesAfter prToggleC 3 = some [0, 2] ∧
    runCountAfter prWriteB2 3 = some 3 ∧
    runCountAfter prWriteA 3 = some 3 := by
  decide

/-- Claim C5 — cycle detection: evaluating a memo `m1` that reads `m2`
whose compute function reads `m1` back fails with `CycleError` on its first
evaluation instead of recomputing forever, and the error is surfaced in the
result. -/
theorem memo_cycle_detected :
    isCycleError (get_value 20 0 cyMemo2.2) = true ∧
    isCycleError (get_value 20 1 cyMemo2.2) = true := by
  decide

/-- Claim C6 — round trip: after `create_signal(0)` the getter returns 0;
after a batch writing 5 the getter returns 5; an effect created before the
write and reading the signal has run exactly twice in total — once at
creation and once after the write — logging the values 0 then 5 in that
order. -/
theorem signal_round_trip :
    valueRead (get_value 20 0 rtSig.2) = some 0 ∧
    runCountAfter rtInit 1 = some 1 ∧
    logAfter rtInit = some [0] ∧
    getterAfter rtAfter 0 = some 5 ∧
    runCountAfter rtAfter 1 = some 2 ∧
    logAfter rtAfter = some [0, 5] := by
  decide

/-- Claim C8 — `get_theme` always returns `Ok`: every hard-coded HTML color
string it parses is accepted by the color parser, so the function never
returns a parse error, and the unwrap of `get_theme()` inside `get_colors`
never panics for any `Variant`. -/
theorem get_theme_always_ok :
    get_theme.isSome = true ∧ ∀ v : Variant, (get_colors v).isSome = true := by
  constructor
  · decide
  · intro v; cases v <;> decide

/-- Claim C9 — `get_colors` maps the `ALERT` and `DISABLED` variants to
identical `ButtonColors`: for both, text is the theme's white, background
the theme's red, and border the theme's transparent color. -/
theorem alert_disabled_same_colors :
    get_colors Variant.ALERT = get_colors Variant.DISABLED ∧
    get_colors Variant.ALERT =
      some ⟨"#ffffff", "#ff5854", "#00000000"⟩ := by
  decide

/-- Claim C10 — `ContactInfo` name mapping: for every route-parameter map,
the displayed name is "Alice", "Bob" or "Steve" exactly when the `id`
parameter (defaulting to the empty string when absent) is "alice", "bob" or
"steve" respectively, and is "User not found." for every other id string. -/
theorem contact_info_name_mapping (params : List (String × String)) :
    (contactName params = "Alice" ↔ contactId params = "alice") ∧
    (contactName params = "Bob" ↔ contactId params = "bob") ∧
    (contactName params = "Steve" ↔ contactId params = "steve") ∧
    (contactId params ≠ "alice" → contactId params ≠ "bob" →
      contactId params ≠ "steve" → contactName params = "User not found.") := by
  unfold contactName
  by_cases h1 : contactId params = "alice"
  · simp [h1]
  · by_cases h2 : contactId params = "bob"
    · simp [h1, h2]
    · by_cases h3 : contactId params = "steve"
      · simp [h1, h2, h3]
      · simp [h1, h2, h3]

/-- Witness for C10 at the empty parameter map: the `id` parameter is
absent, so the id string defaults to empty and the name is the fallback. -/
theorem contact_info_name_mapping_witness :
    contactName [] = "User not found." :=
  (contact_info_name_mapping []).2.2.2 (by decide) (by decide) (by decide)

/-- Claim C1 — glitch-freedom: for any engine state and any deduplicated
marked set (the nodes reachable from the written signals), when the
propagator's topological ordering of the marked subgraph succeeds, the
resulting sweep order runs every marked node at most once (it is duplicate
free), and every source of a swept node that is itself swept in the batch
is processed strictly earlier — so a node only runs after all of its
sources have reached their final value for the batch and never observes a
partially-updated dependency. -/
theorem glitch_free_topological_sweep (f : Nat) (st : Reactive.Engine)
    (marked l : List Nat) (hnd : marked.Nodup)
    (h : Reactive.topoSort f marked st = some l) :
    l.Nodup ∧
    ∀ n ∈ l, ∀ s ∈ Reactive.sourcesOf st n, s ∈ l →
      List.indexOf s l < List.indexOf n l :=
  Reactive.topoSort_nodup_ordered f marked st l h hnd

/-- Witness for C1 on the concrete diamond graph: the marked set is the two
memos and the effect, and the computed sweep order is `[1, 2, 3]` with both
memos before the effect. -/
theorem glitch_free_topological_sweep_witness :
    ([1, 2, 3] : List Nat).Nodup ∧
    ∀ n ∈ [1, 2, 3], ∀ s ∈ Reactive.sourcesOf dmEngine n, s ∈ [1, 2, 3] →
      List.indexOf s [1, 2, 3] < List.indexOf n [1, 2, 3] :=
  glitch_free_topological_sweep 10 dmEngine [1, 2, 3] [1, 2, 3] (by decide)
    (by decide)

/-- Claim C7 — edge mutual consistency: if A is in B's sources exactly when
B is in A's subscribers (for all nodes of the store), then this symmetry is
preserved by `record_edge`, by `clear_sources` and by `dispose`. -/
theorem edge_sets_mutually_consistent (st : Reactive.Engine)
    (h : Reactive.EdgeSymm st) (s c i : Nat) :
    Reactive.EdgeSymm (Reactive.record_edge s c st) ∧
    Reactive.EdgeSymm (Reactive.clear_sources c st) ∧
    Reactive.EdgeSymm (Reactive.dispose i st) :=
  ⟨Reactive.edgeSymm_record_edge s c st h,
   Reactive.edgeSymm_clear_sources c st h,
   Reactive.edgeSymm_dispose i st h⟩

/-- Witness for C7 on the concrete diamond engine (whose edge sets satisfy
the invariant): recording an edge from the signal to the effect, clearing
the effect's sources, and disposing one memo each preserve the symmetry. -/
theorem edge_sets_mutually_consistent_witness :
    Reactive.EdgeSymm (Reactive.record_edge 0 3 dmEngine) ∧
    Reactive.EdgeSymm (Reactive.clear_sources 3 dmEngine) ∧
    Reactive.EdgeSymm (Reactive.dispose 1 dmEngine) :=
  edge_sets_mutually_consistent dmEngine (by decide) 0 3 1

/-- Claim C4 — value-equality short-circuit.  General part: whenever a memo
is recomputed during a sweep and its new value equals its previous cached
value, the sweep step marks no node dirty — every other node's dirty flag
is exactly what it was, and the memo's own flag ends up false.  Concrete
part: in the scenario with a memo over a signal that recomputes to the same
value, a batch writing the signal reruns the memo but not the downstream
effect, whose run count stays 1 and whose log still holds the single value
it observed at creation. -/
theorem memo_equal_value_short_circuit :
    (∀ (f id : Nat) (st : Reactive.Engine) (n : Reactive.Node)
      (e : Reactive.Expr) (v : Int) (st1 : Reactive.Engine),
      st.find id = some n → n.kind = Reactive.NodeKind.memo e →
      Reactive.sourcesDirty st n = true →
      Reactive.exec f (Reactive.Job.runN [] id) st = .ok (v, st1) →
      v = n.value →
      ∃ st2, Reactive.sweepStep f id st = .ok st2 ∧
        (∀ j, j ≠ id → Reactive.dirtyOf st2 j = Reactive.dirtyOf st j) ∧
        Reactive.dirtyOf st2 id = false) ∧
    (Reactive.runCountAfter Reactive.scInit 2 = some 1 ∧
     Reactive.runCountAfter Reactive.scAfter 1 = some 2 ∧
     Reactive.runCountAfter Reactive.scAfter 2 = some 1 ∧
     Reactive.logAfter Reactive.scAfter = some [5]) := by
  constructor
  · intro f id st n e v st1 hfind hkind hdirty hrun heq
    exact Reactive.sweepStep_memo_unchanged f id st n e v st1 hfind hkind
      hdirty hrun heq
  · decide

/-- Witness for C4's general part at the concrete short-circuit scenario:
the memo (id 1) recomputes to 5, its cached value, and the sweep step marks
nothing dirty. -/
theorem memo_equal_value_short_circuit_witness :
    ∃ st2, Reactive.sweepStep 20 1 scWritten = .ok st2 ∧
      (∀ j, j ≠ 1 → Reactive.dirtyOf st2 j = Reactive.dirtyOf scWritten j) ∧
      Reactive.dirtyOf st2 1 = false :=
  memo_equal_value_short_circuit.1 20 1 scWritten scMemoNode
    (Reactive.Expr.econd (Reactive.Expr.eread 0) (Reactive.Expr.econst 5)
      (Reactive.Expr.econst 5))
    5 scRunSt (by decide) (by decide) (by decide) (by rfl) (by decide)
